import Mathlib

/-!
Verification of the cryo-EM tutorial notebook (`cryo-tutorial.ipynb`).

The notebook's own Python definitions (`create_radial_mask`, `load_protein`,
the training loop) are embedded below over exact arithmetic: python/numpy
float values arising in these computations are small integers or simple
rationals, represented by `ℚ`; where IEEE special values (inf/NaN) matter,
an explicit `PyFloat` type models them.  Components imported from modules
that are not part of the repository sources (`observation_model`,
`operators`, `third_party`) are modelled from the specification and say so
in their doc comments.
-/

/-! ## The radial frequency mask (`create_radial_mask`) -/

/-- One row of the boolean radial mask, as built by
`x*x + y*y <= radius*radius` over `np.ogrid[-a:N-a, -b:N-b]` with
`a = b = N/2`, multiplied by `np.ones(shape) * 1.0`: row index `i`
contributes `y = i - N/2`, column index `j` contributes `x = j - N/2`,
and a `True` entry becomes the float `1.0`. -/
def radialMaskRow (N : ℕ) (r : ℚ) (i : ℕ) : List ℚ :=
  (List.range N).map fun (j : ℕ) =>
    if ((j : ℚ) - (N : ℚ) / 2) * ((j : ℚ) - (N : ℚ) / 2)
        + ((i : ℚ) - (N : ℚ) / 2) * ((i : ℚ) - (N : ℚ) / 2) ≤ r * r then 1 else 0

/-- Embedding of the notebook's `create_radial_mask(shape, radius=None)`.
The Python body executes `radius -= 1.` before anything else, so a `None`
radius raises a `TypeError` (modelled as `Except.error`); afterwards the
local variable `radius` holds a float, so the `elif radius is None:` branch
tests `some r1 = none`.  A negative decremented radius returns
`np.zeros(shape)`; otherwise the `N × N` boolean disk is materialised. -/
def create_radial_mask (shape : ℕ × ℕ) (radius : Option ℚ) :
    Except String (List (List ℚ)) :=
  let N := shape.1
  match radius with
  | none => Except.error "TypeError: unsupported operand types for -=: NoneType and float"
  | some r0 =>
    let r1 : ℚ := r0 - 1
    if r1 < 0 then
      Except.ok (List.replicate shape.1 (List.replicate shape.2 0))
    else
      let r2 : ℚ := if (some r1 : Option ℚ) = none then ((N / 2 : ℕ) : ℚ) else r1
      Except.ok ((List.range N).map fun i => radialMaskRow N r2 i)

/-- `create_radial_mask` with the dead `elif radius is None:` branch removed;
used to state that the branch is unreachable. -/
def create_radial_mask_no_none_branch (shape : ℕ × ℕ) (radius : Option ℚ) :
    Except String (List (List ℚ)) :=
  let N := shape.1
  match radius with
  | none => Except.error "TypeError: unsupported operand types for -=: NoneType and float"
  | some r0 =>
    let r1 : ℚ := r0 - 1
    if r1 < 0 then
      Except.ok (List.replicate shape.1 (List.replicate shape.2 0))
    else
      Except.ok ((List.range N).map fun i => radialMaskRow N r1 i)

/-- The mask the training loop builds:
`create_radial_mask((D, D), int(D / 2))` at `D = 128`. -/
def mask128 : List (List ℚ) :=
  match create_radial_mask (128, 128) (some 64) with
  | Except.ok m => m
  | Except.error _ => []

/-- Entry `(i, j)` of a list-of-lists mask (0 outside the lists). -/
def maskAt (m : List (List ℚ)) (i j : ℕ) : ℚ := (m.getD i []).getD j 0

/-- Number of entries equal to `1.0` in the mask. -/
def countOnes (m : List (List ℚ)) : ℕ :=
  (m.map fun row => row.countP fun v => decide (v = 1)).sum

/-- `mask.sum()` of the notebook: the sum of all entries. -/
def maskSum (m : List (List ℚ)) : ℚ := (m.map fun row => row.sum).sum

/-- `num_pixels = mask.sum()` of the training cell. -/
def num_pixels : ℚ := maskSum mask128

/-! ## Radial mask lemmas -/

theorem create_radial_mask_at_64 :
    create_radial_mask (128, 128) (some 64)
      = Except.ok ((List.range 128).map fun i => radialMaskRow 128 63 i) := by
  norm_num [create_radial_mask]
  intro a _
  simp

theorem mask128_eq : mask128 = (List.range 128).map fun i => radialMaskRow 128 63 i := by
  unfold mask128
  rw [create_radial_mask_at_64]

theorem ite_one_zero_eq_one (c : Prop) [Decidable c] : ((if c then (1 : ℚ) else 0) = 1) ↔ c := by
  split <;> simp_all

theorem mask_cond_cast (i j : ℕ) :
    ((j : ℚ) - (128 : ℚ) / 2) * ((j : ℚ) - (128 : ℚ) / 2)
        + ((i : ℚ) - (128 : ℚ) / 2) * ((i : ℚ) - (128 : ℚ) / 2) ≤ 63 * 63
      ↔ ((j : ℤ) - 64) ^ 2 + ((i : ℤ) - 64) ^ 2 ≤ 63 ^ 2 := by
  constructor
  · intro h
    have h2 : ((((j : ℤ) - 64) ^ 2 + ((i : ℤ) - 64) ^ 2 : ℤ) : ℚ) ≤ ((63 ^ 2 : ℤ) : ℚ) := by
      push_cast
      nlinarith [h]
    exact_mod_cast h2
  · intro h
    have h2 : ((((j : ℤ) - 64) ^ 2 + ((i : ℤ) - 64) ^ 2 : ℤ) : ℚ) ≤ ((63 ^ 2 : ℤ) : ℚ) := by
      exact_mod_cast h
    push_cast at h2
    nlinarith [h2]

theorem radialMaskRow_getD (N : ℕ) (r : ℚ) (i j : ℕ) (hj : j < N) :
    (radialMaskRow N r i).getD j 0
      = if ((j : ℚ) - (N : ℚ) / 2) * ((j : ℚ) - (N : ℚ) / 2)
          + ((i : ℚ) - (N : ℚ) / 2) * ((i : ℚ) - (N : ℚ) / 2) ≤ r * r then 1 else 0 := by
  unfold radialMaskRow
  have hj2 : j < ((List.range N).map fun (j : ℕ) =>
      if ((j : ℚ) - (N : ℚ) / 2) * ((j : ℚ) - (N : ℚ) / 2)
          + ((i : ℚ) - (N : ℚ) / 2) * ((i : ℚ) - (N : ℚ) / 2) ≤ r * r
      then (1 : ℚ) else 0).length := by
    rw [List.length_map, List.length_range]
    exact hj
  rw [List.getD_eq_getElem _ _ hj2, List.getElem_map, List.getElem_range]

theorem maskAt_mask128 (i j : ℕ) (hi : i < 128) (hj : j < 128) :
    maskAt mask128 i j
      = if ((j : ℤ) - 64) ^ 2 + ((i : ℤ) - 64) ^ 2 ≤ 63 ^ 2 then 1 else 0 := by
  unfold maskAt
  rw [mask128_eq]
  have hi2 : i < ((List.range 128).map fun i => radialMaskRow 128 63 i).length := by
    rw [List.length_map, List.length_range]
    exact hi
  rw [List.getD_eq_getElem _ _ hi2, List.getElem_map,
    List.getElem_range, radialMaskRow_getD _ _ _ _ hj]
  have h128 : ((128 : ℕ) : ℚ) = (128 : ℚ) := by norm_num
  rw [h128, if_congr (mask_cond_cast i j) rfl rfl]

theorem radialMaskRow_countP (i : ℕ) :
    ((radialMaskRow 128 63 i).countP fun v => decide (v = 1))
      = List.countP (fun (j : ℕ) =>
          decide (((j : ℤ) - 64) ^ 2 + ((i : ℤ) - 64) ^ 2 ≤ 63 ^ 2)) (List.range 128) := by
  unfold radialMaskRow
  rw [List.countP_map]
  apply List.countP_congr
  intro j _
  have h128 : ((128 : ℕ) : ℚ) = (128 : ℚ) := by norm_num
  simp only [Function.comp, decide_eq_true_eq, h128, ite_one_zero_eq_one]
  exact mask_cond_cast i j

set_option maxRecDepth 20000 in
theorem countOnes_mask128 : countOnes mask128 = 12453 := by
  unfold countOnes
  rw [mask128_eq, List.map_map]
  have hrow : ((fun row : List ℚ => row.countP fun v => decide (v = 1))
        ∘ fun i => radialMaskRow 128 63 i)
      = fun (i : ℕ) => List.countP (fun (j : ℕ) =>
          decide (((j : ℤ) - 64) ^ 2 + ((i : ℤ) - 64) ^ 2 ≤ 63 ^ 2)) (List.range 128) := by
    funext i
    exact radialMaskRow_countP i
  rw [hrow]
  decide

theorem sum_eq_countP_of_zero_one (l : List ℚ) (h : ∀ v ∈ l, v = 0 ∨ v = 1) :
    l.sum = ((l.countP fun v => decide (v = 1) : ℕ) : ℚ) := by
  induction l with
  | nil => simp
  | cons a t ih =>
    have ha := h a (by simp)
    have ht := ih fun v hv => h v (by simp [hv])
    rcases ha with h0 | h1
    · rw [List.sum_cons, List.countP_cons, h0, ht]
      norm_num
    · rw [List.sum_cons, List.countP_cons, h1, ht]
      norm_num
      exact add_comm 1 _

theorem maskSum_mask128 : maskSum mask128 = ((countOnes mask128 : ℕ) : ℚ) := by
  unfold maskSum countOnes
  rw [mask128_eq, List.map_map, List.map_map, Nat.cast_list_sum, List.map_map]
  congr 1
  apply List.map_congr_left
  intro i _
  apply sum_eq_countP_of_zero_one
  intro v hv
  unfold radialMaskRow at hv
  simp only [Function.comp, List.mem_map] at hv
  obtain ⟨j, _, rfl⟩ := hv
  split
  · right
    rfl
  · left
    rfl

theorem num_pixels_eq : num_pixels = 12453 := by
  unfold num_pixels
  rw [maskSum_mask128, countOnes_mask128]
  norm_num

/-! ## Claim theorems for the radial mask -/

/-- Claim C10: calling `create_radial_mask` with the radius argument omitted
(declared default `None`) raises a type error before any mask is built,
because `radius -= 1.` executes before the branch that checks
`radius is None`; and that `None`-handling branch is unreachable for every
call: on every input the function returns exactly what the branch-free
variant returns. -/
theorem create_radial_mask_none_raises_and_branch_dead :
    (∀ shape : ℕ × ℕ, create_radial_mask shape none
        = Except.error "TypeError: unsupported operand types for -=: NoneType and float") ∧
    ∀ (shape : ℕ × ℕ) (radius : Option ℚ),
      create_radial_mask shape radius = create_radial_mask_no_none_branch shape radius := by
  constructor
  · intro shape
    rfl
  · intro shape radius
    cases radius with
    | none => rfl
    | some r0 => simp [create_radial_mask, create_radial_mask_no_none_branch]

/-- Claim C1, counterexample: for shape `(128,128)` and radius 64 the mask has
12453 one-entries, and 12453 is not within rounding tolerance (one half) of
the disk area `pi * 63 ^ 2 = 12468.98...`: the count falls short by about
16, so the count part of the claim is false. -/
theorem mask128_count_not_within_rounding :
    countOnes mask128 = 12453 ∧
      ¬ |((countOnes mask128 : ℕ) : ℝ) - Real.pi * 63 ^ 2| ≤ 1 / 2 := by
  have hpi := Real.pi_gt_d6
  refine ⟨countOnes_mask128, ?_⟩
  rw [countOnes_mask128]
  have hle : ((12453 : ℕ) : ℝ) - Real.pi * 63 ^ 2 ≤ 0 := by
    push_cast
    nlinarith
  rw [abs_of_nonpos hle]
  push_cast
  push_neg
  nlinarith

/-- Claim C1 (amended): for shape `(128,128)` and radius argument 64,
`create_radial_mask` returns (no exception) a mask that is 1 exactly at the
centered frequency indices `(u, v) = (j - 64, i - 64)` with
`u^2 + v^2 ≤ 63^2` and 0 everywhere else; the total count of 1-valued
entries is 12453, which lies within 16 (the order of the disk perimeter,
the inherent pixelisation error) of the disk area `pi * 63 ^ 2`, though not
within rounding tolerance of it. -/
theorem mask128_characterisation_and_count :
    create_radial_mask (128, 128) (some 64) = Except.ok mask128 ∧
    (∀ i j : Fin 128, maskAt mask128 i.val j.val
        = if ((j.val : ℤ) - 64) ^ 2 + ((i.val : ℤ) - 64) ^ 2 ≤ 63 ^ 2 then 1 else 0) ∧
    countOnes mask128 = 12453 ∧
    |((countOnes mask128 : ℕ) : ℝ) - Real.pi * 63 ^ 2| < 16 := by
  have hpi1 := Real.pi_gt_d6
  have hpi2 := Real.pi_lt_d6
  refine ⟨?_, ?_, countOnes_mask128, ?_⟩
  · rw [mask128_eq]
    exact create_radial_mask_at_64
  · intro i j
    exact maskAt_mask128 i.val j.val i.isLt j.isLt
  · rw [countOnes_mask128]
    have hle : ((12453 : ℕ) : ℝ) - Real.pi * 63 ^ 2 ≤ 0 := by
      push_cast
      nlinarith
    rw [abs_of_nonpos hle]
    push_cast
    nlinarith

/-! ## The training-loop likelihood (the mask is never applied to it) -/

/-- The per-iteration likelihood of the training cell,
`conditional_loglikelihood = observation_dist.log_prob(observations[idx]).sum() / num_pixels`:
the per-pixel log-density `logpdf mean observation` is summed over ALL
`D x D` Fourier pixels; the radial mask enters only through the divisor
`numPixels = mask.sum()`.  Generic in the scalar field so the definition
stays executable over `ℚ`; the theorems instantiate it at `ℝ` with the
Gaussian log-density. -/
def conditional_loglikelihood {α : Type} [Field α] (D : ℕ) (numPixels : α)
    (logpdf : α → α → α) (mean obs : Fin D → Fin D → α) : α :=
  (∑ i : Fin D, ∑ j : Fin D, logpdf (mean i j) (obs i j)) / numPixels

/-- An observation image that is zero everywhere except at array pixel
`(0, 0)`, whose centered frequency is `(-64, -64)`: distance
`sqrt 8192 > 64` from the Fourier origin, beyond the Nyquist radius. -/
def spike00 : Fin 128 → Fin 128 → ℝ := fun i j => if i = 0 ∧ j = 0 then 1 else 0

theorem sum_spike (d : ℝ) :
    (∑ i : Fin 128, ∑ j : Fin 128, if i = 0 ∧ j = 0 then d else 0) = d := by
  have h1 : ∀ i : Fin 128, (∑ j : Fin 128, if i = 0 ∧ j = 0 then d else 0)
      = if i = 0 then d else 0 := by
    intro i
    by_cases hi : i = 0
    · subst hi
      simp only [true_and]
      rw [Finset.sum_ite_eq' Finset.univ (0 : Fin 128) fun _ => d]
      simp
    · simp [hi]
  rw [Finset.sum_congr rfl fun i _ => h1 i,
    Finset.sum_ite_eq' Finset.univ (0 : Fin 128) fun _ => d]
  simp

theorem conditional_loglikelihood_spike_diff (g : ℝ → ℝ → ℝ) (numPix : ℝ) :
    conditional_loglikelihood 128 numPix g (fun _ _ => 0) spike00
        - conditional_loglikelihood 128 numPix g (fun _ _ => 0) (fun _ _ => 0)
      = (g 0 1 - g 0 0) / numPix := by
  unfold conditional_loglikelihood
  rw [div_sub_div_same]
  congr 1
  rw [← Finset.sum_sub_distrib]
  have h2 : ∀ i : Fin 128,
      ((∑ j : Fin 128, g 0 (spike00 i j)) - ∑ j : Fin 128, g 0 0)
        = ∑ j : Fin 128, if i = 0 ∧ j = 0 then g 0 1 - g 0 0 else 0 := by
    intro i
    rw [← Finset.sum_sub_distrib]
    apply Finset.sum_congr rfl
    intro j _
    by_cases h : i = 0 ∧ j = 0
    · simp [spike00, h]
    · simp [spike00, h]
  rw [Finset.sum_congr rfl fun i _ => h2 i, sum_spike]

/-- Claim C2 is contradicted by the code: the comment above
`create_radial_mask` says pixels beyond the Nyquist frequency are ignored,
and the mask is built, but it is never applied to
`observation_dist.log_prob(...)`: the sum runs over all pixels and the mask
only supplies the divisor `num_pixels`.  Concretely, with the per-pixel
Gaussian log-density (sigma = 1) and zero mean, changing the observation
only at pixel `(0, 0)` - centered frequency `(-64, -64)`, farther than
`D / 2 = 64` from the Fourier origin - changes the value of
`conditional_loglikelihood`, though the spike vanishes at every pixel
within the Nyquist radius. -/
theorem super_nyquist_pixel_changes_loss :
    ((0 : ℤ) - 64) ^ 2 + ((0 : ℤ) - 64) ^ 2 > 64 ^ 2 ∧
    (∀ i j : Fin 128, ((i.val : ℤ) - 64) ^ 2 + ((j.val : ℤ) - 64) ^ 2 ≤ 64 ^ 2 →
        spike00 i j = 0) ∧
    conditional_loglikelihood 128 ((num_pixels : ℚ) : ℝ)
        (fun m x => -((x - m) ^ 2) / 2 - Real.log (Real.sqrt (2 * Real.pi)))
        (fun _ _ => 0) spike00
      ≠ conditional_loglikelihood 128 ((num_pixels : ℚ) : ℝ)
        (fun m x => -((x - m) ^ 2) / 2 - Real.log (Real.sqrt (2 * Real.pi)))
        (fun _ _ => 0) (fun _ _ => 0) := by
  refine ⟨by norm_num, ?_, ?_⟩
  · intro i j h
    unfold spike00
    by_cases h0 : i = 0 ∧ j = 0
    · exfalso
      obtain ⟨hi, hj⟩ := h0
      subst hi
      subst hj
      norm_num at h
    · simp [h0]
  · intro heq
    have hd := conditional_loglikelihood_spike_diff
      (fun m x => -((x - m) ^ 2) / 2 - Real.log (Real.sqrt (2 * Real.pi)))
      ((num_pixels : ℚ) : ℝ)
    rw [heq, sub_self] at hd
    have hnum : ((num_pixels : ℚ) : ℝ) = 12453 := by
      rw [num_pixels_eq]
      norm_num
    rw [hnum] at hd
    norm_num at hd

/-! ## Spec-modelled components: modules absent from the repository sources -/

/-- Modelled from the spec: the module `observation_model` is not among the
repository sources (only its callers are).  The `TranslationPhaseShifter`
multiplies every frequency coefficient `(u, v)` of a `D x D` Fourier slice
(frequency indices centered at zero) by
`exp (-2 * pi * I * (u * tx + v * ty) / D)`. -/
noncomputable def translation_phase_shift (D : ℕ) (t : ℝ × ℝ) (S : ℤ → ℤ → ℂ) : ℤ → ℤ → ℂ :=
  fun u v => S u v
    * Complex.exp ((-(2 * Real.pi * ((u : ℝ) * t.1 + (v : ℝ) * t.2) / D) : ℝ) * Complex.I)

/-- Claim C4: shifting by `(tx, ty)` and then by `(-tx, -ty)` returns the
original slice exactly, and every coefficient of a shifted slice has the
same magnitude as the corresponding input coefficient: the translation is a
pure phase modulation. -/
theorem translation_phase_shift_inverse_and_isometry :
    ∀ (D : ℕ) (t : ℝ × ℝ) (S : ℤ → ℤ → ℂ),
      translation_phase_shift D (-t.1, -t.2) (translation_phase_shift D t S) = S ∧
      ∀ u v : ℤ, Complex.abs (translation_phase_shift D t S u v) = Complex.abs (S u v) := by
  intro D t S
  constructor
  · funext u v
    unfold translation_phase_shift
    rw [mul_assoc, ← Complex.exp_add]
    have hsum : ((-(2 * Real.pi * ((u : ℝ) * t.1 + (v : ℝ) * t.2) / D) : ℝ) : ℂ) * Complex.I
        + ((-(2 * Real.pi * ((u : ℝ) * (-t.1, -t.2).1 + (v : ℝ) * (-t.1, -t.2).2) / D) : ℝ) : ℂ)
          * Complex.I = 0 := by
      have hr : (-(2 * Real.pi * ((u : ℝ) * t.1 + (v : ℝ) * t.2) / D))
          + (-(2 * Real.pi * ((u : ℝ) * (-t.1, -t.2).1 + (v : ℝ) * (-t.1, -t.2).2) / D)) = 0 := by
        simp only []
        ring
      calc ((-(2 * Real.pi * ((u : ℝ) * t.1 + (v : ℝ) * t.2) / D) : ℝ) : ℂ) * Complex.I
            + ((-(2 * Real.pi * ((u : ℝ) * (-t.1, -t.2).1 + (v : ℝ) * (-t.1, -t.2).2) / D) : ℝ) : ℂ)
              * Complex.I
          = (((-(2 * Real.pi * ((u : ℝ) * t.1 + (v : ℝ) * t.2) / D)
              + (-(2 * Real.pi * ((u : ℝ) * (-t.1, -t.2).1 + (v : ℝ) * (-t.1, -t.2).2) / D)) : ℝ)) : ℂ)
              * Complex.I := by
            push_cast
            ring
        _ = 0 := by
            rw [hr]
            simp
    rw [hsum, Complex.exp_zero, mul_one]
  · intro u v
    unfold translation_phase_shift
    rw [map_mul, Complex.abs_exp_ofReal_mul_I, mul_one]

/-- A per-pixel independent Gaussian over a Fourier slice: a mean slice and
a scalar standard deviation (the float is represented by `ℚ`). -/
structure ObsDist where
  mean : ℤ → ℤ → ℂ
  std : ℚ

/-- Modelled from the spec: `ScientificImagingObservationModel` (module
`observation_model`, absent from the sources) composes the central-slice
projector - an abstract argument here, its internals are not needed by the
claims - with the translation phase shifter, and pairs the noiseless
projection with a Gaussian observation distribution exactly when the noise
standard deviation is positive; for `std_noise = 0` no distribution is
returned. -/
noncomputable def observation_model_apply (D : ℕ) (std_noise : ℚ)
    (central_slice : (ℤ → ℤ → ℤ → ℂ) → Matrix (Fin 3) (Fin 3) ℝ → (ℤ → ℤ → ℂ))
    (volume : ℤ → ℤ → ℤ → ℂ) (R : Matrix (Fin 3) (Fin 3) ℝ) (t : ℝ × ℝ) :
    (ℤ → ℤ → ℂ) × Option ObsDist :=
  let proj := translation_phase_shift D t (central_slice volume R)
  (proj, if 0 < std_noise then some { mean := proj, std := std_noise } else none)

/-- Claim C3: with noise standard deviation 0 the observation model returns
the noiseless projection (phase-shifted central slice) together with `none`
- no distribution object, hence no sampling and no log-likelihood support -
and a distribution object is returned exactly when the standard deviation
is positive, with the projection as its mean. -/
theorem observation_model_sigma_zero_returns_none :
    ∀ (D : ℕ) central_slice volume R t,
      (observation_model_apply D 0 central_slice volume R t).1
          = translation_phase_shift D t (central_slice volume R) ∧
      (observation_model_apply D 0 central_slice volume R t).2 = none ∧
      ∀ σ : ℚ,
        (∃ d, (observation_model_apply D σ central_slice volume R t).2 = some d ∧
            d.mean = (observation_model_apply D σ central_slice volume R t).1 ∧ d.std = σ)
          ↔ 0 < σ := by
  intro D cs vol R t
  refine ⟨rfl, rfl, ?_⟩
  intro σ
  constructor
  · rintro ⟨d, hd, _, _⟩
    by_cases h : 0 < σ
    · exact h
    · unfold observation_model_apply at hd
      simp [h] at hd
  · intro h
    refine ⟨⟨translation_phase_shift D t (cs vol R), σ⟩, ?_, rfl, rfl⟩
    simp [observation_model_apply, h]

/-- Modelled from the spec: drawing an observation from the model by
reparameterised sampling - the noiseless projection plus `std_noise` times
a per-coefficient noise draw `eps`. -/
noncomputable def observation_model_sample (D : ℕ) (std_noise : ℚ)
    (central_slice : (ℤ → ℤ → ℤ → ℂ) → Matrix (Fin 3) (Fin 3) ℝ → (ℤ → ℤ → ℂ))
    (volume : ℤ → ℤ → ℤ → ℂ) (R : Matrix (Fin 3) (Fin 3) ℝ) (t : ℝ × ℝ)
    (eps : ℤ → ℤ → ℂ) : ℤ → ℤ → ℂ :=
  fun u v => (observation_model_apply D std_noise central_slice volume R t).1 u v
    + (std_noise : ℂ) * eps u v

/-- Claim C6: the observation model with noise standard deviation 0 is
deterministic: its output does not depend on the noise draw, so repeated
calls with identical volume, rotation and translation give identical
outputs, both equal to the noiseless projection. -/
theorem observation_model_sigma_zero_deterministic :
    ∀ (D : ℕ) central_slice volume R t eps1 eps2,
      observation_model_sample D 0 central_slice volume R t eps1
          = observation_model_sample D 0 central_slice volume R t eps2 ∧
      observation_model_sample D 0 central_slice volume R t eps1
          = (observation_model_apply D 0 central_slice volume R t).1 := by
  intro D cs vol R t eps1 eps2
  constructor
  · funext u v
    simp [observation_model_sample]
  · funext u v
    simp [observation_model_sample]

/-! ## Rotation parameterisation (`rotmat3D_EA`, module `operators`) -/

open Matrix

/-- Elementary rotation about the z axis. -/
noncomputable def Rz (θ : ℝ) : Matrix (Fin 3) (Fin 3) ℝ :=
  !![Real.cos θ, -Real.sin θ, 0; Real.sin θ, Real.cos θ, 0; 0, 0, 1]

/-- Elementary rotation about the y axis. -/
noncomputable def Ry (θ : ℝ) : Matrix (Fin 3) (Fin 3) ℝ :=
  !![Real.cos θ, 0, Real.sin θ; 0, 1, 0; -Real.sin θ, 0, Real.cos θ]

/-- Modelled from the spec: `rotmat3D_EA` (module `operators`, absent from
the repository sources) converts a 3-parameter Euler-angle vector into a
3 x 3 rotation matrix as a fixed composition of elementary rotations about
three axes - the z-y-z convention. -/
noncomputable def rotmat3D_EA (ea : Fin 3 → ℝ) : Matrix (Fin 3) (Fin 3) ℝ :=
  Rz (ea 0) * Ry (ea 1) * Rz (ea 2)

theorem Rz_mul_transpose (θ : ℝ) : Rz θ * (Rz θ)ᵀ = 1 := by
  ext i j
  fin_cases i <;> fin_cases j <;>
    simp [Rz, Matrix.mul_apply, Fin.sum_univ_three, Matrix.one_apply,
      Matrix.transpose_apply, Matrix.cons_val_zero, Matrix.cons_val_one,
      Matrix.head_cons, Matrix.vecHead, Matrix.vecTail] <;>
    nlinarith [Real.sin_sq_add_cos_sq θ]

theorem Ry_mul_transpose (θ : ℝ) : Ry θ * (Ry θ)ᵀ = 1 := by
  ext i j
  fin_cases i <;> fin_cases j <;>
    simp [Ry, Matrix.mul_apply, Fin.sum_univ_three, Matrix.one_apply,
      Matrix.transpose_apply, Matrix.cons_val_zero, Matrix.cons_val_one,
      Matrix.head_cons, Matrix.vecHead, Matrix.vecTail] <;>
    nlinarith [Real.sin_sq_add_cos_sq θ]

theorem Rz_det (θ : ℝ) : (Rz θ).det = 1 := by
  simp [Rz, Matrix.det_fin_three]
  nlinarith [Real.sin_sq_add_cos_sq θ]

theorem Ry_det (θ : ℝ) : (Ry θ).det = 1 := by
  simp [Ry, Matrix.det_fin_three]
  nlinarith [Real.sin_sq_add_cos_sq θ]

theorem mul_mul_transpose_one {A B : Matrix (Fin 3) (Fin 3) ℝ}
    (hA : A * Aᵀ = 1) (hB : B * Bᵀ = 1) : (A * B) * (A * B)ᵀ = 1 := by
  rw [Matrix.transpose_mul, Matrix.mul_assoc, ← Matrix.mul_assoc B, hB, Matrix.one_mul, hA]

/-- Claim C5: for every 3-parameter Euler-angle vector (hence for every
element of any batch of them), `rotmat3D_EA` returns an orthonormal matrix
- `R * Rᵀ = 1` - of determinant +1; in this exact-arithmetic model the
identities hold exactly, in particular within any numerical tolerance. -/
theorem rotmat3D_EA_special_orthogonal :
    ∀ ea : Fin 3 → ℝ,
      rotmat3D_EA ea * (rotmat3D_EA ea)ᵀ = 1 ∧ (rotmat3D_EA ea).det = 1 := by
  intro ea
  constructor
  · unfold rotmat3D_EA
    exact mul_mul_transpose_one
      (mul_mul_transpose_one (Rz_mul_transpose (ea 0)) (Ry_mul_transpose (ea 1)))
      (Rz_mul_transpose (ea 2))
  · unfold rotmat3D_EA
    rw [Matrix.det_mul, Matrix.det_mul, Rz_det, Ry_det, Rz_det]
    norm_num

/-! ## load_protein: mass normalisation over IEEE-style floats -/

/-- A numpy double: a finite value (exactly represented here by `ℚ`), a
signed infinity, or NaN. -/
inductive PyFloat where
  | fin : ℚ → PyFloat
  | posInf : PyFloat
  | negInf : PyFloat
  | nan : PyFloat
deriving DecidableEq

/-- IEEE-754 division as numpy evaluates it (a runtime warning, never an
exception): a nonzero finite numerator over zero gives a signed infinity,
and `0.0 / 0.0` gives NaN. -/
def PyFloat.div : PyFloat → PyFloat → PyFloat
  | .fin a, .fin b =>
    if b = 0 then (if a = 0 then .nan else if 0 < a then .posInf else .negInf)
    else .fin (a / b)
  | .fin _, .posInf => .fin 0
  | .fin _, .negInf => .fin 0
  | .posInf, .fin b => if 0 ≤ b then .posInf else .negInf
  | .negInf, .fin b => if 0 ≤ b then .negInf else .posInf
  | _, _ => .nan

/-- IEEE-754 multiplication: zero times an infinity is NaN. -/
def PyFloat.mul : PyFloat → PyFloat → PyFloat
  | .fin a, .fin b => .fin (a * b)
  | .fin a, .posInf => if a = 0 then .nan else if 0 < a then .posInf else .negInf
  | .fin a, .negInf => if a = 0 then .nan else if 0 < a then .negInf else .posInf
  | .posInf, .fin b => if b = 0 then .nan else if 0 < b then .posInf else .negInf
  | .negInf, .fin b => if b = 0 then .nan else if 0 < b then .negInf else .posInf
  | .posInf, .posInf => .posInf
  | .negInf, .negInf => .posInf
  | .posInf, .negInf => .negInf
  | .negInf, .posInf => .negInf
  | _, _ => .nan

/-- The mass-normalisation statement of `load_protein`,
`if total_mass is not None: M *= float(total_mass) / M.sum()`, over the
float model.  numpy raises no exception here - division by zero only emits
a warning - so every input reaches `Except.ok`; the `Except` return type
records that the code has no error path at all. -/
def mass_normalize (M : List ℚ) (total_mass : Option ℚ) : Except String (List PyFloat) :=
  match total_mass with
  | none => Except.ok (M.map PyFloat.fin)
  | some tm =>
    Except.ok (M.map fun v =>
      PyFloat.mul (PyFloat.fin v) (PyFloat.div (PyFloat.fin tm) (PyFloat.fin M.sum)))

/-- Whether a result is the error outcome. -/
def isError {α : Type} (r : Except String α) : Bool :=
  match r with
  | Except.error _ => true
  | Except.ok _ => false

theorem list_sum_zero_of_nonneg {M : List ℚ} (hnn : ∀ v ∈ M, 0 ≤ v) (hsum : M.sum = 0) :
    ∀ v ∈ M, v = 0 := by
  induction M with
  | nil =>
    intro v hv
    simp at hv
  | cons a t ih =>
    have ha : 0 ≤ a := hnn a (by simp)
    have htn : ∀ v ∈ t, 0 ≤ v := fun v hv => hnn v (by simp [hv])
    have hts : 0 ≤ t.sum := List.sum_nonneg htn
    rw [List.sum_cons] at hsum
    have ha0 : a = 0 := by linarith
    have hts0 : t.sum = 0 := by linarith
    intro v hv
    rcases List.mem_cons.mp hv with rfl | hv2
    · exact ha0
    · exact ih htn hts0 v hv2

/-- Claim C7, counterexample: a volume of four zero voxels sums to zero, yet
`load_protein`'s mass-normalisation raises no error at all:
`float(80000) / 0.0` is `inf` under numpy (warning only) and `0.0 * inf` is
NaN, so the call silently returns the all-NaN volume instead of failing
fast as the claim states. -/
theorem mass_normalize_zero_sum_no_error :
    mass_normalize [0, 0, 0, 0] (some 80000)
        = Except.ok [PyFloat.nan, PyFloat.nan, PyFloat.nan, PyFloat.nan] ∧
    isError (mass_normalize [0, 0, 0, 0] (some 80000)) = false := by
  have hsum : List.sum [(0 : ℚ), 0, 0, 0] = 0 := by norm_num
  constructor
  · unfold mass_normalize
    rw [hsum]
    norm_num [PyFloat.div, PyFloat.mul]
  · rfl

/-- Claim C7 (amended): when the voxel values are nonnegative - as they are
at the normalisation site, after `M[M < 0] = 0` - and sum to zero,
`load_protein`'s mass-normalisation does not fail fast: it returns, with no
error, the volume with every voxel NaN (`float(total_mass) / 0.0` is `inf`,
`0.0 * inf` is NaN). -/
theorem mass_normalize_zero_sum_all_nan
    (M : List ℚ) (tm : ℚ) (hpos : 0 < tm) (hnn : ∀ v ∈ M, 0 ≤ v) (hsum : M.sum = 0) :
    mass_normalize M (some tm) = Except.ok (M.map fun _ => PyFloat.nan) ∧
    isError (mass_normalize M (some tm)) = false := by
  have hall := list_sum_zero_of_nonneg hnn hsum
  constructor
  · show Except.ok (M.map fun v =>
        PyFloat.mul (PyFloat.fin v) (PyFloat.div (PyFloat.fin tm) (PyFloat.fin M.sum)))
      = Except.ok (M.map fun _ => PyFloat.nan)
    congr 1
    apply List.map_congr_left
    intro v hv
    rw [hall v hv, hsum]
    simp [PyFloat.div, PyFloat.mul, hpos, hpos.ne']
  · rfl

/-- Witness for the amended C7 theorem at the concrete all-zero volume. -/
theorem mass_normalize_zero_sum_all_nan_witness :
    mass_normalize [0, 0, 0, 0] (some 80000)
        = Except.ok ([(0 : ℚ), 0, 0, 0].map fun _ => PyFloat.nan) ∧
    isError (mass_normalize [0, 0, 0, 0] (some 80000)) = false :=
  mass_normalize_zero_sum_all_nan [0, 0, 0, 0] 80000 (by norm_num) (by simp) (by norm_num)

/-! ## load_protein: the separable interpolation premultiplier -/

/-- A `D x D x D` real-space volume of floats. -/
def Vol (D : ℕ) := Fin D → Fin D → Fin D → ℚ

/-- `premult.reshape((1, 1, -1))`: the 1-D array broadcast along the last
axis. -/
def reshape_axis2 {D : ℕ} (p : Fin D → ℚ) : Vol D := fun _ _ k => p k

/-- `premult.reshape((1, -1, 1))`: broadcast along the middle axis. -/
def reshape_axis1 {D : ℕ} (p : Fin D → ℚ) : Vol D := fun _ j _ => p j

/-- `premult.reshape((-1, 1, 1))`: broadcast along the first axis. -/
def reshape_axis0 {D : ℕ} (p : Fin D → ℚ) : Vol D := fun i _ _ => p i

/-- numpy elementwise product of two (broadcast) volumes. -/
def broadcast_mul {D : ℕ} (A B : Vol D) : Vol D := fun i j k => A i j k * B i j k

/-- The premultiplier volume of `load_protein`:
`premult.reshape((1,1,-1)) * premult.reshape((1,-1,1)) * premult.reshape((-1,1,1))`. -/
def premult3 {D : ℕ} (p : Fin D → ℚ) : Vol D :=
  broadcast_mul (broadcast_mul (reshape_axis2 p) (reshape_axis1 p)) (reshape_axis0 p)

/-- `M[M < 0] = 0` of `load_protein`. -/
def clamp_nonneg {D : ℕ} (M : Vol D) : Vol D := fun i j k => max (M i j k) 0

/-- `M.sum()`. -/
def volSum {D : ℕ} (M : Vol D) : ℚ := ∑ i, ∑ j, ∑ k, M i j k

/-- `if total_mass is not None: M *= float(total_mass) / M.sum()`, in exact
arithmetic (the zero-sum float behaviour is modelled by `mass_normalize`
above). -/
def mass_scale {D : ℕ} (M : Vol D) (total_mass : Option ℚ) : Vol D :=
  match total_mass with
  | some tm => fun i j k => M i j k * (tm / volSum M)
  | none => M

/-- Embedding of `load_protein` after `readMRC`: `window(M, 'circle')` and
`real_to_fspace` come from the external `third_party` module and are passed
as abstract arguments.  The body computes the separable premultiplier,
windows, clamps negatives, mass-normalises, multiplies the premultiplier
volume in - once - and hands the product to the forward Fourier transform. -/
def load_protein {D : ℕ} (real_to_fspace : Vol D → (Fin D → Fin D → Fin D → ℂ))
    (windowFn : Vol D → Vol D) (premult1d : Fin D → ℚ) (M0 : Vol D)
    (total_mass : Option ℚ) : Fin D → Fin D → Fin D → ℂ :=
  real_to_fspace
    (broadcast_mul (mass_scale (clamp_nonneg (windowFn M0)) total_mass) (premult3 premult1d))

/-- Claim C9: `load_protein` applies the interpolation-compensating
premultiplier exactly once, as the separable product of one 1-D per-axis
correction array along each of the three axes - voxel `(i, j, k)` of the
processed real-space volume is scaled by `p k * p j * p i` and by nothing
else - before the forward Fourier transform is taken. -/
theorem load_protein_premultiplier_separable :
    ∀ (D : ℕ) (real_to_fspace : Vol D → (Fin D → Fin D → Fin D → ℂ))
      (windowFn : Vol D → Vol D) (premult1d : Fin D → ℚ) (M0 : Vol D)
      (total_mass : Option ℚ),
      load_protein real_to_fspace windowFn premult1d M0 total_mass
        = real_to_fspace (fun i j k =>
            mass_scale (clamp_nonneg (windowFn M0)) total_mass i j k
              * (premult1d k * premult1d j * premult1d i)) := by
  intro D rtf win p M0 tm
  unfold load_protein
  congr 1

/-! ## The training loop -/

/-- The mutable training state: the two posterior parameter tensors
(`protein_loc`, `protein_log_scale`) and their accumulated gradient
buffers; each tensor is abstracted to one scalar. -/
structure TrainState where
  loc : ℚ
  logScale : ℚ
  gradLoc : ℚ
  gradLogScale : ℚ
deriving DecidableEq

/-- `loss.backward()`: autograd adds the loss gradient into each
parameter's gradient buffer. -/
def backward (g : ℚ × ℚ) (s : TrainState) : TrainState :=
  { s with gradLoc := s.gradLoc + g.1, gradLogScale := s.gradLogScale + g.2 }

/-- `optimizer_grad_step` of the notebook:
`for opt in optimizer: opt.step(); opt.zero_grad()` - the `protein_loc`
optimizer steps on its gradient and clears it, then the `protein_log_scale`
optimizer does the same.  The update rules of the two Adam instances are
abstract arguments. -/
def optimizer_grad_step (stepLoc stepScale : ℚ → ℚ → ℚ) (s : TrainState) : TrainState :=
  let s1 := { s with loc := stepLoc s.loc s.gradLoc }
  let s2 := { s1 with gradLoc := 0 }
  let s3 := { s2 with logScale := stepScale s2.logScale s2.gradLogScale }
  { s3 with gradLogScale := 0 }

/-- One pass of the training-loop body, in the code's order:
(1) `protein_dist.rsample` - reparameterised sampling: `loc` plus the
positively transformed scale (`softplus`, abstracted to `scaleT`) times the
noise draw `eps`;
(2) `observation_model(protein_sample, R, t)` - abstracted to `fwd`;
(3) the scalar loss `-conditional_loglikelihood` - abstracted to `lossFn`;
(4) `loss.backward()` - the gradient oracle `gradFn` gives the gradient of
the iteration's loss at the iteration's inputs and autograd adds it to the
buffers;
(5) `optimizer_grad_step(optimizer)`.
Returns the new state together with the iteration's loss value. -/
def train_iteration (scaleT : ℚ → ℚ) (fwd : ℚ → ℚ) (lossFn : ℚ → ℚ → ℚ)
    (gradFn : ℚ → ℚ → ℚ → ℚ → ℚ × ℚ) (stepLoc stepScale : ℚ → ℚ → ℚ)
    (eps data : ℚ) (s : TrainState) : TrainState × ℚ :=
  let protein_sample := s.loc + scaleT s.logScale * eps
  let projection := fwd protein_sample
  let loss := lossFn projection data
  let s1 := backward (gradFn s.loc s.logScale eps data) s
  (optimizer_grad_step stepLoc stepScale s1, loss)

/-- The training loop: iterate `train_iteration` from the freshly
initialised parameters (`fill_(0.)`, `fill_(-100)`, empty gradient
buffers), consuming per-iteration noise draws and data from the streams
`eps` and `data`. -/
def train_run (scaleT : ℚ → ℚ) (fwd : ℚ → ℚ) (lossFn : ℚ → ℚ → ℚ)
    (gradFn : ℚ → ℚ → ℚ → ℚ → ℚ × ℚ) (stepLoc stepScale : ℚ → ℚ → ℚ)
    (eps data : ℕ → ℚ) : ℕ → TrainState
  | 0 => ⟨0, -100, 0, 0⟩
  | n + 1 =>
    (train_iteration scaleT fwd lossFn gradFn stepLoc stepScale (eps n) (data n)
      (train_run scaleT fwd lossFn gradFn stepLoc stepScale eps data n)).1

/-- Claim C8: the loop body performs sampling, observation model, loss,
backward and parameter-update-with-gradient-clearing strictly in sequence
(`train_iteration` is exactly that composition), and no gradient survives
into the next iteration: at the start of every iteration both gradient
buffers are zero, so the parameter update of each iteration consumes
exactly the gradient its own backward pass produced and nothing older. -/
theorem train_run_clears_gradients :
    ∀ (scaleT fwd : ℚ → ℚ) (lossFn : ℚ → ℚ → ℚ) (gradFn : ℚ → ℚ → ℚ → ℚ → ℚ × ℚ)
      (stepLoc stepScale : ℚ → ℚ → ℚ) (eps data : ℕ → ℚ) (n : ℕ),
      (train_run scaleT fwd lossFn gradFn stepLoc stepScale eps data n).gradLoc = 0 ∧
      (train_run scaleT fwd lossFn gradFn stepLoc stepScale eps data n).gradLogScale = 0 ∧
      (train_run scaleT fwd lossFn gradFn stepLoc stepScale eps data (n + 1)).loc
        = stepLoc (train_run scaleT fwd lossFn gradFn stepLoc stepScale eps data n).loc
            (gradFn (train_run scaleT fwd lossFn gradFn stepLoc stepScale eps data n).loc
              (train_run scaleT fwd lossFn gradFn stepLoc stepScale eps data n).logScale
              (eps n) (data n)).1 ∧
      (train_run scaleT fwd lossFn gradFn stepLoc stepScale eps data (n + 1)).logScale
        = stepScale (train_run scaleT fwd lossFn gradFn stepLoc stepScale eps data n).logScale
            (gradFn (train_run scaleT fwd lossFn gradFn stepLoc stepScale eps data n).loc
              (train_run scaleT fwd lossFn gradFn stepLoc stepScale eps data n).logScale
              (eps n) (data n)).2 := by
  intro scaleT fwd lossFn gradFn stepLoc stepScale eps data n
  have hgrad : ∀ m,
      (train_run scaleT fwd lossFn gradFn stepLoc stepScale eps data m).gradLoc = 0 ∧
      (train_run scaleT fwd lossFn gradFn stepLoc stepScale eps data m).gradLogScale = 0 := by
    intro m
    cases m with
    | zero => exact ⟨rfl, rfl⟩
    | succ k => exact ⟨rfl, rfl⟩
  refine ⟨(hgrad n).1, (hgrad n).2, ?_, ?_⟩
  · show stepLoc (train_run scaleT fwd lossFn gradFn stepLoc stepScale eps data n).loc
        ((train_run scaleT fwd lossFn gradFn stepLoc stepScale eps data n).gradLoc
          + (gradFn (train_run scaleT fwd lossFn gradFn stepLoc stepScale eps data n).loc
              (train_run scaleT fwd lossFn gradFn stepLoc stepScale eps data n).logScale
              (eps n) (data n)).1)
      = _
    rw [(hgrad n).1, zero_add]
  · show stepScale (train_run scaleT fwd lossFn gradFn stepLoc stepScale eps data n).logScale
        ((train_run scaleT fwd lossFn gradFn stepLoc stepScale eps data n).gradLogScale
          + (gradFn (train_run scaleT fwd lossFn gradFn stepLoc stepScale eps data n).loc
              (train_run scaleT fwd lossFn gradFn stepLoc stepScale eps data n).logScale
              (eps n) (data n)).2)
      = _
    rw [(hgrad n).2, zero_add]
